import Mathlib

set_option maxHeartbeats 1000000

/-!
Verification development for the `plan` package of swisspost/external-dns
(`plan/plan.go`).  The Go code is shallowly embedded: pure Go functions
become Lean functions, the in-place mutations that `Calculate` performs on
the receiver and on caller-supplied records are made explicit as returned
values, Go `nil` maps/interfaces become `Option`, and Go `nil` slices of
endpoints are `Option (List Endpoint)` (with `none` for a nil slice).

The `endpoint` package, the `Policy` and `ConflictResolver` collaborators
and the domain filter are not part of the sources; they are modelled from
the spec where a definition needs them, and are marked as such.
-/

namespace ExternalDNS

/-- Modelled from the spec: the record data type (`endpoint.Endpoint`) is not
part of the sources.  Per the spec a record carries a name, a record type, a
set identifier, a target set, an optional configured TTL ("unconfigured" is a
distinct state, modelled as `none`), a label map (Go `map[string]string`,
which may be `nil`: `none` here, an association list otherwise) and a list of
provider-specific name/value properties. -/
structure Endpoint where
  dnsName : String
  targets : List String
  recordType : String
  setIdentifier : String
  recordTTL : Option Int
  labels : Option (List (String × String))
  providerSpecific : List (String × String)
deriving DecidableEq, Repr

/-- Modelled from the spec: `endpoint.OwnerLabelKey`, the reserved label key
carrying the owner identity.  Its concrete value is irrelevant to the plan
logic; the upstream constant is the string "owner". -/
def ownerLabelKey : String := "owner"

/-- Modelled from the spec: record-type constants of the `endpoint` package. -/
def recordTypeA : String := "A"

/-- Modelled from the spec: record-type constants of the `endpoint` package. -/
def recordTypeAAAA : String := "AAAA"

/-- Modelled from the spec: record-type constants of the `endpoint` package. -/
def recordTypeCNAME : String := "CNAME"

/-- Modelled from the spec: record-type constants of the `endpoint` package. -/
def recordTypeTXT : String := "TXT"

/-- Go map lookup `m[k]` with comma-ok semantics on a possibly-nil map:
`none` when the map is nil or the key is absent. -/
def labelsLookup (m : Option (List (String × String))) (k : String) : Option String :=
  match m with
  | none => none
  | some l => ((l.find? (fun kv => kv.1 == k)).map (fun kv => kv.2))

/-- Go map lookup `m[k]` without comma-ok: the zero value `""` when the map is
nil or the key is absent. -/
def labelsGetD (m : Option (List (String × String))) (k : String) : String :=
  (labelsLookup m k).getD ""

/-- Go map assignment `m[k] = v` on the underlying association list:
replace the binding if the key is present, append it otherwise. -/
def labelsInsert (l : List (String × String)) (k v : String) : List (String × String) :=
  if l.any (fun kv => kv.1 == k) then
    l.map (fun kv => if kv.1 == k then (k, v) else kv)
  else l ++ [(k, v)]

/-- Modelled from the spec: `endpoint.Targets.Same` is not part of the
sources; per the spec target equality "is a set-equality, not positional". -/
def targetsSame (a b : List String) : Bool :=
  a.all (fun x => b.contains x) && b.all (fun x => a.contains x)

/-- `PropertyComparator` (plan.go): compares a named custom property's
previous and current values, `true` meaning equal. -/
abbrev PropertyComparator := String → String → String → Bool

/-- `Changes` (plan.go): the four action lists.  Each Go slice may be nil
(`none`) or non-nil (`some`), a distinction `filterOwnedRecords` relies on. -/
structure Changes where
  Create : Option (List Endpoint)
  UpdateOld : Option (List Endpoint)
  UpdateNew : Option (List Endpoint)
  Delete : Option (List Endpoint)
deriving DecidableEq, Repr

/-- Modelled from the spec: a `Policy` is an external collaborator with a
single `Apply(changes) Changes` method, modelled as a function. -/
abbrev Policy := Changes → Changes

/-- `Plan` (plan.go).  `DomainFilter` is a nilable interface value modelled as
`Option` of its `Match` predicate; `changes` is the Go `Changes *Changes`
field (named lower-case here to avoid clashing with the `Changes` type). -/
structure Plan where
  Current : List Endpoint
  Desired : List Endpoint
  Missing : List Endpoint
  Policies : List Policy
  changes : Option Changes
  DomainFilter : Option (String → Bool)
  PropertyComparator : Option PropertyComparator
  ManagedRecords : List String
  TXTOwner : String
  HasMig : Bool
  TXTOwnerMigrate : Bool
  TXTOwnerOld : String

/-- `planKey` (plan.go): the grouping key of a table row. -/
structure planKey where
  dnsName : String
  setIdentifier : String
  recordType : String
deriving DecidableEq, Repr

/-- `planTableRow` (plan.go): at most one current record plus the desired
candidates for one key. -/
structure planTableRow where
  current : Option Endpoint
  candidates : List Endpoint
deriving DecidableEq, Repr

/-- The `rows` map of `planTable` (plan.go), as an association list in
insertion order (Go map iteration order is unspecified; the embedding fixes
insertion order, which no claim depends on). -/
abbrev PlanTable := List (planKey × planTableRow)

/-- Go `strings.TrimSpace`, rendered on the character list: drop leading and
trailing whitespace. -/
def trimSpaceChars (l : List Char) : List Char :=
  ((l.dropWhile Char.isWhitespace).reverse.dropWhile Char.isWhitespace).reverse

/-- `normalizeDNSName` (plan.go): trim surrounding whitespace, lower-case,
append a trailing dot when the name does not already end with one.
Go `strings.HasSuffix(s, ".")` for the one-character suffix `"."` is exactly
"the last character is a dot", which is how it is rendered here.  Go's
Unicode-aware `strings.ToLower`/`strings.TrimSpace` are rendered as
character-wise `Char.toLower` and `trimSpaceChars` on the character list. -/
def normalizeDNSName (dnsName : String) : String :=
  let chars := trimSpaceChars (dnsName.data.map Char.toLower)
  if chars.getLast? == some '.' then ⟨chars⟩ else ⟨chars ++ ['.']⟩

/-- The key-normalization step of `planTable.newPlanKey` (plan.go). -/
def newPlanKey (e : Endpoint) : planKey :=
  { dnsName := normalizeDNSName e.dnsName
    setIdentifier := e.setIdentifier
    recordType := e.recordType }

/-- Row creation on first reference, from `planTable.newPlanKey` (plan.go):
`t.rows[key] = &planTableRow{}` when the key is absent. -/
def tableEnsure (t : PlanTable) (k : planKey) : PlanTable :=
  if t.any (fun kr => kr.1 == k) then t else t ++ [(k, ⟨none, []⟩)]

/-- Updating the row stored under an existing key. -/
def tableModify (t : PlanTable) (k : planKey) (f : planTableRow → planTableRow) : PlanTable :=
  t.map (fun kr => if kr.1 == k then (k, f kr.2) else kr)

/-- `planTable.addCurrent` (plan.go): create the row if absent and set
`row.current` (a later call for the same key overwrites). -/
def addCurrent (t : PlanTable) (e : Endpoint) : PlanTable :=
  let k := newPlanKey e
  tableModify (tableEnsure t k) k (fun r => { r with current := some e })

/-- `planTable.addCandidate` (plan.go): create the row if absent and append
to `row.candidates`. -/
def addCandidate (t : PlanTable) (e : Endpoint) : PlanTable :=
  let k := newPlanKey e
  tableModify (tableEnsure t k) k (fun r => { r with candidates := r.candidates ++ [e] })

/-- The table-building phase of `Plan.Calculate` (plan.go): all filtered
current records via `addCurrent`, then all filtered desired records via
`addCandidate`. -/
def buildTable (cur des : List Endpoint) : PlanTable :=
  des.foldl addCandidate (cur.foldl addCurrent [])

/-- Modelled from the spec: `PerResource.ResolveCreate` of the hardcoded
conflict resolver is not part of the sources; the spec only requires picking
one representative from the (per its precondition non-empty) candidate list,
modelled as the first candidate.  The `Option` result makes the Go panic on
an empty list visible as `none`. -/
def resolveCreate (candidates : List Endpoint) : Option Endpoint :=
  candidates.head?

/-- Modelled from the spec: `PerResource.ResolveUpdate` is not part of the
sources; the spec only requires picking one representative among the
candidates, modelled as the first one (with `current` as an unreachable
default for an empty list). -/
def resolveUpdate (current : Endpoint) (candidates : List Endpoint) : Endpoint :=
  candidates.headD current

/-- `shouldUpdateTTL` (plan.go): an unconfigured desired TTL never triggers;
a configured one triggers exactly when it differs from the current TTL. -/
def shouldUpdateTTL (desired current : Endpoint) : Bool :=
  if !desired.recordTTL.isSome then false
  else desired.recordTTL != current.recordTTL

/-- `targetChanged` (plan.go). -/
def targetChanged (desired current : Endpoint) : Bool :=
  !(targetsSame desired.targets current.targets)

/-- The `desiredProperties` map of `Plan.shouldUpdateProviderSpecific`
(plan.go) is built by iterating the list with later entries overwriting
earlier ones; its lookup is therefore last-occurrence-wins. -/
def propsLookup (props : List (String × String)) (n : String) : Option String :=
  props.foldl (fun acc pr => if pr.1 == n then some pr.2 else acc) none

/-- The loop body of `Plan.shouldUpdateProviderSpecific` (plan.go) for one
property `c` of the current record: compare against the same-named property
of `desired` when present (via the comparator when supplied, else direct
inequality) and against `""` when absent; `true` means mismatch. -/
def providerPropertyMismatch (p : Plan) (desired : Endpoint) (c : String × String) : Bool :=
  match propsLookup desired.providerSpecific c.1 with
  | some dv =>
    match p.PropertyComparator with
    | some cmp => !(cmp c.1 c.2 dv)
    | none => c.2 != dv
  | none =>
    match p.PropertyComparator with
    | some cmp => !(cmp c.1 c.2 "")
    | none => c.2 != ""

/-- `Plan.shouldUpdateProviderSpecific` (plan.go): scan the properties of
`current`, returning `true` on the first mismatch.  Properties present only
on `desired` are never examined. -/
def Plan.shouldUpdateProviderSpecific (p : Plan) (desired current : Endpoint) : Bool :=
  current.providerSpecific.any (providerPropertyMismatch p desired)

/-- `inheritOwner` (plan.go).  The Go function mutates both records in
place: it replaces a nil label map by an empty one on *both* `from` and `to`,
then copies the owner label value from `from` onto `to`.  The embedding
returns the two records as they stand after the call (first component: the
`from` record, second: the `to` record). -/
def inheritOwner (fromEp toEp : Endpoint) : Endpoint × Endpoint :=
  let fromL := fromEp.labels.getD []
  let toL := toEp.labels.getD []
  ({ fromEp with labels := some fromL },
   { toEp with labels := some (labelsInsert toL ownerLabelKey (labelsGetD (some fromL) ownerLabelKey)) })

/-- The owner-migration construction of `Plan.Calculate` (plan.go):
`update := row.current.DeepCopy(); update.Labels[OwnerLabelKey] = p.TXTOwner`.
Modelled from the spec: `endpoint.DeepCopy` is not part of the sources; per
the spec this is "a deep copy of current with the owner label rewritten to
the new owner identity", rendered as a functional update of the label map. -/
def migrateOwnerCopy (e : Endpoint) (newOwner : String) : Endpoint :=
  { e with labels := some (labelsInsert (e.labels.getD []) ownerLabelKey newOwner) }

/-- The contribution of one `planTable` row to the change lists inside the
row loop of `Plan.Calculate` (plan.go), plus the row's effect on the local
`hasMig` flag. -/
structure RowChanges where
  create : List Endpoint
  updateNew : List Endpoint
  updateOld : List Endpoint
  delete : List Endpoint
  hasMig : Bool
deriving DecidableEq, Repr

/-- One iteration of the row loop of `Plan.Calculate` (plan.go):
create when no current record, delete when no candidates, otherwise the
owner-migration branch (which short-circuits) and then ordinary update
detection guarded by the three predicates. -/
def processRow (p : Plan) (row : planTableRow) : RowChanges :=
  match row.current with
  | none => ⟨(resolveCreate row.candidates).toList, [], [], [], false⟩
  | some cur =>
    if row.candidates.isEmpty then ⟨[], [], [], [cur], false⟩
    else if p.TXTOwnerMigrate && (labelsGetD cur.labels ownerLabelKey == p.TXTOwnerOld) then
      ⟨[], [migrateOwnerCopy cur p.TXTOwner], [cur], [], true⟩
    else
      let update := resolveUpdate cur row.candidates
      if shouldUpdateTTL update cur || targetChanged update cur
          || p.shouldUpdateProviderSpecific update cur then
        let pair := inheritOwner cur update
        ⟨[], [pair.2], [pair.1], [], false⟩
      else ⟨[], [], [], [], false⟩

/-- Go `append(s, xs...)` on a nilable slice: appending nothing returns the
slice unchanged (nil stays nil), appending anything yields a non-nil slice. -/
def optAppend (s : Option (List Endpoint)) (xs : List Endpoint) : Option (List Endpoint) :=
  if xs.isEmpty then s else some (s.getD [] ++ xs)

/-- Folding one row's contribution into the accumulated raw changes and the
`hasMig` flag of `Plan.Calculate` (plan.go). -/
def stepRow (p : Plan) (acc : Changes × Bool) (row : planTableRow) : Changes × Bool :=
  let rc := processRow p row
  ({ Create := optAppend acc.1.Create rc.create
     UpdateOld := optAppend acc.1.UpdateOld rc.updateOld
     UpdateNew := optAppend acc.1.UpdateNew rc.updateNew
     Delete := optAppend acc.1.Delete rc.delete },
   acc.2 || rc.hasMig)

/-- The whole row loop of `Plan.Calculate` (plan.go), starting from
`changes := &Changes{}` (all slices nil) and `hasMig := false`. -/
def calculateRaw (p : Plan) (rows : List planTableRow) : Changes × Bool :=
  rows.foldl (stepRow p) (⟨none, none, none, none⟩, false)

/-- `IsManagedRecord` (plan.go). -/
def IsManagedRecord (record : String) (managedRecords : List String) : Bool :=
  managedRecords.any (fun r => record == r)

/-- `filterRecordsForPlan` (plan.go): keep records matching the domain filter
whose type is managed, preserving order. -/
def filterRecordsForPlan (records : List Endpoint) (domainFilter : String → Bool)
    (managedRecords : List String) : List Endpoint :=
  records.filter (fun record =>
    domainFilter record.dnsName && IsManagedRecord record.recordType managedRecords)

/-- The accepted owner set of `filterOwnedRecords` (plan.go):
`{ownerID}`, extended with `{ownerIDOld}` when migration is enabled. -/
def acceptedOwners (ownerID ownerIDOld : String) (migrate : Bool) : List String :=
  if migrate then [ownerID, ownerIDOld] else [ownerID]

/-- The per-record test of `filterOwnedRecords` (plan.go): the owner label
must be present (comma-ok) and its value a member of the accepted set. -/
def recordOwnerPasses (ownerIDs : List String) (ep : Endpoint) : Bool :=
  match labelsLookup ep.labels ownerLabelKey with
  | none => false
  | some o => ownerIDs.contains o

/-- `filterOwnedRecords` (plan.go): keep owned records, returning the Go
`nil` slice (`none`) rather than an empty non-nil slice when nothing
survives. -/
def filterOwnedRecords (ownerID ownerIDOld : String) (migrate : Bool)
    (eps : List Endpoint) : Option (List Endpoint) :=
  let filtered := eps.filter (recordOwnerPasses (acceptedOwners ownerID ownerIDOld migrate))
  if filtered.isEmpty then none else some filtered

/-- Modelled from the spec: `endpoint.MatchAllDomainFilters(nil)`, the
default for a nil domain filter, "matches everything". -/
def matchAllDomainFilter : String → Bool := fun _ => true

/-- The domain filter `Plan.Calculate` works with: the plan's own filter,
defaulted to match-all when nil (plan.go lines 152-154). -/
def planDf (p : Plan) : String → Bool :=
  p.DomainFilter.getD matchAllDomainFilter

/-- The filtered current records of `Plan.Calculate` (plan.go). -/
def planFilteredCurrent (p : Plan) : List Endpoint :=
  filterRecordsForPlan p.Current (planDf p) p.ManagedRecords

/-- The filtered desired records of `Plan.Calculate` (plan.go). -/
def planFilteredDesired (p : Plan) : List Endpoint :=
  filterRecordsForPlan p.Desired (planDf p) p.ManagedRecords

/-- The grouping table `Plan.Calculate` builds (plan.go). -/
def planTableOf (p : Plan) : PlanTable :=
  buildTable (planFilteredCurrent p) (planFilteredDesired p)

/-- The rows the change-detection loop of `Plan.Calculate` iterates. -/
def planRows (p : Plan) : List planTableRow :=
  (planTableOf p).map (fun kr => kr.2)

/-- The raw changes and migration flag after the row loop of
`Plan.Calculate` (plan.go). -/
def planRawChanges (p : Plan) : Changes × Bool :=
  calculateRaw p (planRows p)

/-- The changes after the policy chain of `Plan.Calculate` (plan.go):
`for _, pol := range p.Policies { changes = pol.Apply(changes) }`. -/
def planAfterPolicies (p : Plan) : Changes :=
  p.Policies.foldl (fun c pol => pol c) (planRawChanges p).1

/-- The changes after the missing-records append of `Plan.Calculate`
(plan.go): when `p.Missing` is non-empty, its records (filtered with the
managed set extended by the TXT type) are appended to `Create`. -/
def planAfterMissing (p : Plan) : Changes :=
  if p.Missing.isEmpty then planAfterPolicies p
  else { planAfterPolicies p with
         Create := optAppend (planAfterPolicies p).Create
           (filterRecordsForPlan p.Missing (planDf p) (p.ManagedRecords ++ [recordTypeTXT])) }

/-- The `Changes` value placed in the plan returned by `Plan.Calculate`
(plan.go lines 216-221): `Create` is taken over unfiltered, the other three
lists go through `filterOwnedRecords`. -/
def planFinalChanges (p : Plan) : Changes :=
  { Create := (planAfterMissing p).Create
    UpdateOld := filterOwnedRecords p.TXTOwner p.TXTOwnerOld p.TXTOwnerMigrate
      ((planAfterMissing p).UpdateOld.getD [])
    UpdateNew := filterOwnedRecords p.TXTOwner p.TXTOwnerOld p.TXTOwnerMigrate
      ((planAfterMissing p).UpdateNew.getD [])
    Delete := filterOwnedRecords p.TXTOwner p.TXTOwnerOld p.TXTOwnerMigrate
      ((planAfterMissing p).Delete.getD []) }

/-- The two plan values observable after `p.Calculate()` returns:
the newly constructed result, and the receiver's own fields (which the Go
code mutates when it defaults a nil `DomainFilter`, plan.go lines 152-154). -/
structure CalcOutcome where
  result : Plan
  receiver : Plan

/-- `Plan.Calculate` (plan.go).  The result plan sets only the fields of the
literal at lines 213-224; all its other fields are Go zero values.  The
receiver is returned as mutated by the nil-domain-filter defaulting. -/
def Plan.Calculate (p : Plan) : CalcOutcome :=
  { result :=
      { Current := p.Current
        Desired := p.Desired
        Missing := []
        Policies := []
        changes := some (planFinalChanges p)
        DomainFilter := none
        PropertyComparator := none
        ManagedRecords := [recordTypeA, recordTypeAAAA, recordTypeCNAME]
        TXTOwner := ""
        HasMig := (planRawChanges p).2
        TXTOwnerMigrate := false
        TXTOwnerOld := "" }
    receiver := { p with DomainFilter := some (planDf p) } }

/-- Whether a record survives the record filter of `Plan.Calculate`. -/
def survivesPlanFilter (p : Plan) (e : Endpoint) : Bool :=
  planDf p e.dnsName && IsManagedRecord e.recordType p.ManagedRecords

/-- Lookup of a row in the grouping table by key. -/
def tableFind (t : PlanTable) (k : planKey) : Option planTableRow :=
  (t.find? (fun kr => kr.1 == k)).map (fun kr => kr.2)

/-- Whether the ordinary-update branch of the row loop calls `inheritOwner`
with `e` as the row's current record: the row keyed by `e` has candidates,
the migration branch is not taken, and some change predicate fires
(plan.go lines 193-200). -/
def rowInheritOwnerFires (p : Plan) (e : Endpoint) : Bool :=
  match tableFind (planTableOf p) (newPlanKey e) with
  | none => false
  | some row =>
    !row.candidates.isEmpty
    && !(p.TXTOwnerMigrate && (labelsGetD e.labels ownerLabelKey == p.TXTOwnerOld))
    && (let u := resolveUpdate e row.candidates
        shouldUpdateTTL u e || targetChanged u e || p.shouldUpdateProviderSpecific u e)

/-- The in-place effect of `inheritOwner` (plan.go lines 233-235) on its
`from` argument: a nil label map is replaced by an empty one. -/
def normalizeLabelsOf (e : Endpoint) : Endpoint :=
  { e with labels := some (e.labels.getD []) }

/-- The values of the caller's current records after `Calculate` returns.
The only write the row loop performs through a current-record pointer is
`inheritOwner`'s nil-label-map normalization, and it hits the record stored
as `row.current`, i.e. the last filtered current record of its key
(`addCurrent` is last-write-wins). -/
def currentAfterList (p : Plan) : List Endpoint → List Endpoint
  | [] => []
  | e :: rest =>
    (if survivesPlanFilter p e
        && !(rest.any (fun e2 => survivesPlanFilter p e2 && (newPlanKey e2 == newPlanKey e)))
        && rowInheritOwnerFires p e
     then normalizeLabelsOf e else e) :: currentAfterList p rest

/-- The caller's `p.Current` record values after `p.Calculate()` returns. -/
def currentAfterCalculate (p : Plan) : List Endpoint :=
  currentAfterList p p.Current

/-- The five outcome indicators of one row of the change-detection loop, read
off its emitted contribution: create, delete, migrate, ordinary update,
no-op. -/
def rowOutcomes (rc : RowChanges) : List Bool :=
  [!rc.create.isEmpty,
   !rc.delete.isEmpty,
   rc.hasMig,
   !rc.updateNew.isEmpty && !rc.hasMig,
   rc.create.isEmpty && rc.delete.isEmpty && rc.updateNew.isEmpty && !rc.hasMig]

/-- A table row is key-consistent when all its candidates share the grouping
key of its current record (true for every row `buildTable` produces). -/
def rowKeyConsistent (row : planTableRow) : Prop :=
  ∀ c, row.current = some c → ∀ e ∈ row.candidates, newPlanKey e = newPlanKey c

/-- Number of trailing dot characters of a string. -/
def trailingDots (s : String) : Nat :=
  (s.data.reverse.takeWhile (fun c => c == '.')).length

/-- The relation between an `UpdateNew` entry and its paired `UpdateOld`
entry that survives the ownership filter: equal grouping keys and the same
ownership-filter decision. -/
def pairRel (p : Plan) (a b : Endpoint) : Prop :=
  newPlanKey a = newPlanKey b
  ∧ recordOwnerPasses (acceptedOwners p.TXTOwner p.TXTOwnerOld p.TXTOwnerMigrate) a
    = recordOwnerPasses (acceptedOwners p.TXTOwner p.TXTOwnerOld p.TXTOwnerMigrate) b

/-- Equal grouping keys. -/
def keyRel (a b : Endpoint) : Prop := newPlanKey a = newPlanKey b

/-- A desired record with no labels at all (concrete input). -/
def epNoOwner : Endpoint := ⟨"a", ["1.1.1.1"], "A", "", none, none, []⟩

/-- Concrete plan: nothing current, one unowned desired record. -/
def planC1 : Plan :=
  { Current := [], Desired := [epNoOwner], Missing := [], Policies := [], changes := none
    DomainFilter := none, PropertyComparator := none, ManagedRecords := ["A"]
    TXTOwner := "me", HasMig := false, TXTOwnerMigrate := false, TXTOwnerOld := "" }

/-- Concrete plan: completely empty, nil domain filter. -/
def planC2 : Plan :=
  { Current := [], Desired := [], Missing := [], Policies := [], changes := none
    DomainFilter := none, PropertyComparator := none, ManagedRecords := []
    TXTOwner := "", HasMig := false, TXTOwnerMigrate := false, TXTOwnerOld := "" }

/-- Concrete plan: like `planC2` but with an explicit (match-all) filter. -/
def planC2W : Plan :=
  { planC2 with DomainFilter := some matchAllDomainFilter }

/-- Current record with a non-nil label map that lacks the owner key. -/
def epCurC4 : Endpoint := ⟨"a", ["1.1.1.1"], "A", "", none, some [], []⟩

/-- Desired record with different targets for the same key. -/
def epDesC4 : Endpoint := ⟨"a", ["2.2.2.2"], "A", "", none, none, []⟩

/-- Concrete plan with an empty owner identity and an owner-less current
record on an update row. -/
def planC4 : Plan :=
  { Current := [epCurC4], Desired := [epDesC4], Missing := [], Policies := [], changes := none
    DomainFilter := none, PropertyComparator := none, ManagedRecords := ["A"]
    TXTOwner := "", HasMig := false, TXTOwnerMigrate := false, TXTOwnerOld := "" }

/-- Current record whose owner label equals the prior owner identity. -/
def epCurC5 : Endpoint := ⟨"c", ["1.1.1.1"], "A", "", none, some [(ownerLabelKey, "old")], []⟩

/-- Desired record with the same key and targets as `epCurC5`. -/
def epDesC5 : Endpoint := ⟨"c", ["1.1.1.1"], "A", "", none, none, []⟩

/-- The table row holding `epCurC5` and `epDesC5`. -/
def rowC5 : planTableRow := ⟨some epCurC5, [epDesC5]⟩

/-- Concrete plan with owner migration enabled from "old" to "new". -/
def planC5 : Plan :=
  { Current := [epCurC5], Desired := [epDesC5], Missing := [], Policies := [], changes := none
    DomainFilter := none, PropertyComparator := none, ManagedRecords := ["A"]
    TXTOwner := "new", HasMig := false, TXTOwnerMigrate := true, TXTOwnerOld := "old" }

/-- Current record with a nil label map. -/
def epCurC8 : Endpoint := ⟨"b", ["1.1.1.1"], "A", "", none, none, []⟩

/-- Desired record with the same key as `epCurC8` but different targets. -/
def epDesC8 : Endpoint := ⟨"b", ["2.2.2.2"], "A", "", none, none, []⟩

/-- Concrete plan whose single update row has a nil-labelled current record. -/
def planC8 : Plan :=
  { Current := [epCurC8], Desired := [epDesC8], Missing := [], Policies := [], changes := none
    DomainFilter := none, PropertyComparator := none, ManagedRecords := ["A"]
    TXTOwner := "me", HasMig := false, TXTOwnerMigrate := false, TXTOwnerOld := "" }

/-- Concrete row: a current record with no candidates (a delete row). -/
def rowDel : planTableRow := ⟨some epCurC8, []⟩

/-- Concrete endpoints for the TTL predicate. -/
def epTTLNew : Endpoint := ⟨"t", ["1.1.1.1"], "A", "", some 300, none, []⟩

/-- Concrete endpoints for the TTL predicate. -/
def epTTLCur : Endpoint := ⟨"t", ["1.1.1.1"], "A", "", some 60, none, []⟩

/-- Concrete endpoint with one provider-specific property. -/
def epPropCur : Endpoint := ⟨"e", ["1.1.1.1"], "A", "", none, none, [("proxied", "true")]⟩

/-- Concrete endpoint with no provider-specific properties. -/
def epPropDes : Endpoint := ⟨"e", ["1.1.1.1"], "A", "", none, none, []⟩

/-- Number of `true` entries of a boolean list. -/
def countTrue : List Bool → Nat
  | [] => 0
  | b :: r => (if b then 1 else 0) + countTrue r

/-- The invariant every entry of a table built by `addCurrent`/`addCandidate`
satisfies: the row is non-empty (its current record is set or it has at least
one candidate) and every record stored in the row has the row's key. -/
def goodEntry (kr : planKey × planTableRow) : Prop :=
  (kr.2.current.isSome = true ∨ kr.2.candidates ≠ [])
  ∧ (∀ c, kr.2.current = some c → newPlanKey c = kr.1)
  ∧ (∀ e ∈ kr.2.candidates, newPlanKey e = kr.1)

/-! ### Helper lemmas about label maps and the ownership filter -/

theorem labelsLookup_norm (m : Option (List (String × String))) (k : String) :
    labelsLookup (some (m.getD [])) k = labelsLookup m k := by
  cases m <;> simp [labelsLookup]

theorem labelsLookup_some (l : List (String × String)) (k : String) :
    labelsLookup (some l) k = (l.find? (fun kv => kv.1 == k)).map (fun kv => kv.2) := rfl

theorem find?_map_replace (l : List (String × String)) (k v : String)
    (h : l.any (fun kv => kv.1 == k) = true) :
    (l.map (fun kv => if kv.1 == k then (k, v) else kv)).find? (fun kv => kv.1 == k)
      = some (k, v) := by
  induction l with
  | nil => simp at h
  | cons a rest ih =>
    rw [List.any_cons] at h
    rw [List.map_cons]
    cases ha : (a.1 == k) with
    | true =>
      rw [if_pos rfl]
      exact List.find?_cons_of_pos _ (by simp)
    | false =>
      rw [if_neg (by simp)]
      rw [List.find?_cons_of_neg _ (by simp [ha])]
      rw [ha] at h
      simp only [Bool.false_or] at h
      exact ih h

theorem labelsLookup_insert_self (l : List (String × String)) (k v : String) :
    labelsLookup (some (labelsInsert l k v)) k = some v := by
  rw [labelsLookup_some]
  unfold labelsInsert
  by_cases h : l.any (fun kv => kv.1 == k) = true
  · rw [if_pos h, find?_map_replace l k v h]
    rfl
  · rw [Bool.not_eq_true] at h
    rw [if_neg (by simp [h])]
    rw [List.find?_append]
    have hn : l.find? (fun kv => kv.1 == k) = none := by
      rw [List.find?_eq_none]
      intro x hx hpx
      have h2 : l.any (fun kv => kv.1 == k) = true := List.any_eq_true.2 ⟨x, hx, hpx⟩
      rw [h2] at h
      exact Bool.noConfusion h
    simp [hn]

theorem labelsLookup_of_getD (m : Option (List (String × String))) (k v : String)
    (h : labelsGetD m k = v) (hv : v ≠ "") : labelsLookup m k = some v := by
  unfold labelsGetD at h
  cases hl : labelsLookup m k with
  | none => rw [hl] at h; exact absurd h.symm (by simpa using hv)
  | some w => rw [hl] at h; simp at h; rw [h]

theorem filterOwnedRecords_getD (o oo : String) (m : Bool) (l : List Endpoint) :
    (filterOwnedRecords o oo m l).getD []
      = l.filter (recordOwnerPasses (acceptedOwners o oo m)) := by
  unfold filterOwnedRecords
  by_cases h : (l.filter (recordOwnerPasses (acceptedOwners o oo m))).isEmpty = true
  · rw [List.isEmpty_iff] at h
    simp [h]
  · simp [h]

theorem filterOwnedRecords_ne_some_nil (o oo : String) (m : Bool) (l : List Endpoint) :
    filterOwnedRecords o oo m l ≠ some [] := by
  intro hc
  unfold filterOwnedRecords at hc
  by_cases h : (l.filter (recordOwnerPasses (acceptedOwners o oo m))).isEmpty = true
  · rw [if_pos h] at hc
    exact Option.noConfusion hc
  · rw [if_neg h] at hc
    rw [Option.some.injEq] at hc
    rw [hc] at h
    simp at h

theorem mem_filterOwnedRecords (o oo : String) (m : Bool) (l : List Endpoint)
    (e : Endpoint) (h : e ∈ (filterOwnedRecords o oo m l).getD []) :
    recordOwnerPasses (acceptedOwners o oo m) e = true := by
  rw [filterOwnedRecords_getD] at h
  exact (List.mem_filter.1 h).2

/-! ### Table-construction invariants (claims C3, C4 and C10) -/

theorem mem_tableEnsure (t : PlanTable) (k : planKey) (x : planKey × planTableRow)
    (hx : x ∈ tableEnsure t k) : x ∈ t ∨ x = (k, ⟨none, []⟩) := by
  unfold tableEnsure at hx
  by_cases h : t.any (fun kr => kr.1 == k) = true
  · rw [if_pos h] at hx
    exact Or.inl hx
  · rw [if_neg h] at hx
    rcases List.mem_append.1 hx with h1 | h1
    · exact Or.inl h1
    · right
      simpa using h1

theorem goodEntry_addCurrent (t : PlanTable) (e : Endpoint)
    (ht : ∀ kr ∈ t, goodEntry kr) :
    ∀ kr ∈ addCurrent t e, goodEntry kr := by
  intro x hx
  simp only [addCurrent, tableModify] at hx
  rcases List.mem_map.1 hx with ⟨kr, hkr, hg⟩
  rcases mem_tableEnsure t (newPlanKey e) kr hkr with hin | hnew
  · by_cases hb : (kr.1 == newPlanKey e) = true
    · rw [if_pos hb] at hg
      have hk : kr.1 = newPlanKey e := by simpa using hb
      have hgood := ht kr hin
      subst hg
      refine ⟨Or.inl rfl, ?_, ?_⟩
      · intro c hc
        have hc2 : some e = some c := hc
        rw [Option.some.injEq] at hc2
        show newPlanKey c = newPlanKey e
        rw [← hc2]
      · intro e2 he2
        have he3 : e2 ∈ kr.2.candidates := he2
        show newPlanKey e2 = newPlanKey e
        exact (hgood.2.2 e2 he3).trans hk
    · rw [if_neg hb] at hg
      subst hg
      exact ht kr hin
  · by_cases hb : (kr.1 == newPlanKey e) = true
    · rw [if_pos hb] at hg
      subst hg
      refine ⟨Or.inl rfl, ?_, ?_⟩
      · intro c hc
        have hc2 : some e = some c := hc
        rw [Option.some.injEq] at hc2
        show newPlanKey c = newPlanKey e
        rw [← hc2]
      · intro e2 he2
        have he3 : e2 ∈ kr.2.candidates := he2
        rw [hnew] at he3
        simp at he3
    · rw [if_neg hb] at hg
      rw [hnew] at hb
      simp at hb

theorem goodEntry_addCandidate (t : PlanTable) (e : Endpoint)
    (ht : ∀ kr ∈ t, goodEntry kr) :
    ∀ kr ∈ addCandidate t e, goodEntry kr := by
  intro x hx
  simp only [addCandidate, tableModify] at hx
  rcases List.mem_map.1 hx with ⟨kr, hkr, hg⟩
  rcases mem_tableEnsure t (newPlanKey e) kr hkr with hin | hnew
  · by_cases hb : (kr.1 == newPlanKey e) = true
    · rw [if_pos hb] at hg
      have hk : kr.1 = newPlanKey e := by simpa using hb
      have hgood := ht kr hin
      subst hg
      refine ⟨Or.inr (by simp), ?_, ?_⟩
      · intro c hc
        have hc2 : kr.2.current = some c := hc
        show newPlanKey c = newPlanKey e
        exact (hgood.2.1 c hc2).trans hk
      · intro e2 he2
        have he3 : e2 ∈ kr.2.candidates ++ [e] := he2
        show newPlanKey e2 = newPlanKey e
        rcases List.mem_append.1 he3 with h2 | h2
        · exact (hgood.2.2 e2 h2).trans hk
        · rw [List.mem_singleton.1 h2]
    · rw [if_neg hb] at hg
      subst hg
      exact ht kr hin
  · by_cases hb : (kr.1 == newPlanKey e) = true
    · rw [if_pos hb] at hg
      subst hg
      refine ⟨Or.inr (by simp), ?_, ?_⟩
      · intro c hc
        have hc2 : kr.2.current = some c := hc
        rw [hnew] at hc2
        exact Option.noConfusion (show (none : Option Endpoint) = some c from hc2)
      · intro e2 he2
        have he3 : e2 ∈ kr.2.candidates ++ [e] := he2
        show newPlanKey e2 = newPlanKey e
        rw [hnew] at he3
        have he4 : e2 ∈ ([] : List Endpoint) ++ [e] := he3
        rw [List.nil_append, List.mem_singleton] at he4
        rw [he4]
    · rw [if_neg hb] at hg
      rw [hnew] at hb
      simp at hb

theorem goodEntry_foldl_addCurrent (l : List Endpoint) (t : PlanTable)
    (ht : ∀ kr ∈ t, goodEntry kr) :
    ∀ kr ∈ l.foldl addCurrent t, goodEntry kr := by
  induction l generalizing t with
  | nil => exact ht
  | cons e rest ih =>
    rw [List.foldl_cons]
    exact ih (addCurrent t e) (goodEntry_addCurrent t e ht)

theorem goodEntry_foldl_addCandidate (l : List Endpoint) (t : PlanTable)
    (ht : ∀ kr ∈ t, goodEntry kr) :
    ∀ kr ∈ l.foldl addCandidate t, goodEntry kr := by
  induction l generalizing t with
  | nil => exact ht
  | cons e rest ih =>
    rw [List.foldl_cons]
    exact ih (addCandidate t e) (goodEntry_addCandidate t e ht)

theorem buildTable_good (cur des : List Endpoint) :
    ∀ kr ∈ buildTable cur des, goodEntry kr := by
  unfold buildTable
  exact goodEntry_foldl_addCandidate des _
    (goodEntry_foldl_addCurrent cur [] (by intro kr h; simp at h))

theorem planRows_keyConsistent (p : Plan) (row : planTableRow)
    (h : row ∈ planRows p) : rowKeyConsistent row := by
  unfold planRows at h
  rcases List.mem_map.1 h with ⟨kr, hkr, hr⟩
  have hg := buildTable_good _ _ kr hkr
  intro c hc e he
  rw [← hr] at hc he
  rw [hg.2.2 e he]
  exact (hg.2.1 c hc).symm

/-! ### Claim C6: the TTL predicate -/

/-- Claim C6: `shouldUpdateTTL` fires iff the desired record's TTL is in the
configured state and differs from the current record's TTL; in particular an
unconfigured desired TTL never forces an update. -/
theorem c6_ttl_predicate (u c : Endpoint) :
    (shouldUpdateTTL u c = true ↔ (u.recordTTL.isSome = true ∧ u.recordTTL ≠ c.recordTTL))
    ∧ (u.recordTTL = none → shouldUpdateTTL u c = false) := by
  constructor
  · unfold shouldUpdateTTL
    cases h : u.recordTTL with
    | none => simp [h]
    | some x => simp [h, bne_iff_ne]
  · intro h
    unfold shouldUpdateTTL
    simp [h]

/-- Witness for C6 at a concrete pair of records. -/
theorem c6_ttl_predicate_witness :
    (shouldUpdateTTL epTTLNew epTTLCur = true
      ↔ (epTTLNew.recordTTL.isSome = true ∧ epTTLNew.recordTTL ≠ epTTLCur.recordTTL))
    ∧ (epTTLNew.recordTTL = none → shouldUpdateTTL epTTLNew epTTLCur = false) :=
  c6_ttl_predicate epTTLNew epTTLCur

/-! ### Claim C7: the provider-specific predicate -/

/-- Claim C7: the provider-specific predicate fires iff some property on the
current record mismatches (present properties are compared via the comparator
or direct inequality, absent ones against the empty string), and properties
present only on the desired record never trigger an update (with no current
properties the predicate cannot fire). -/
theorem c7_provider_specific (p : Plan) (u c : Endpoint) :
    (p.shouldUpdateProviderSpecific u c = true ↔
      ∃ pr ∈ c.providerSpecific, providerPropertyMismatch p u pr = true)
    ∧ (c.providerSpecific = [] → p.shouldUpdateProviderSpecific u c = false) := by
  constructor
  · unfold Plan.shouldUpdateProviderSpecific
    exact List.any_eq_true
  · intro h
    unfold Plan.shouldUpdateProviderSpecific
    rw [h]
    rfl

/-- Witness for C7 at concrete records: a property on current that is absent
on desired. -/
theorem c7_provider_specific_witness :
    (planC2.shouldUpdateProviderSpecific epPropDes epPropCur = true ↔
      ∃ pr ∈ epPropCur.providerSpecific, providerPropertyMismatch planC2 epPropDes pr = true)
    ∧ (epPropCur.providerSpecific = [] →
        planC2.shouldUpdateProviderSpecific epPropDes epPropCur = false) :=
  c7_provider_specific planC2 epPropDes epPropCur

/-! ### Claim C9: DNS-name normalization -/

/-- Claim C9 (counterexample): normalization does not collapse pre-existing
trailing dots, so "a.." keeps two trailing dots — the result does not end
with exactly one trailing dot separator as claimed. -/
theorem c9_counterexample :
    normalizeDNSName "a.." = "a.." ∧ trailingDots (normalizeDNSName "a..") = 2 :=
  ⟨by decide, by decide⟩

/-- Claim C9 (amended): normalization lower-cases the name character-wise,
trims surrounding whitespace, and appends a single trailing dot when the
trimmed lower-cased name does not already end with one (so the result always
ends with a dot, but pre-existing trailing dots are preserved, not collapsed
to exactly one). -/
theorem c9_normalize_amended (s : String) :
    (normalizeDNSName s).data.getLast? = some '.'
    ∧ ((trimSpaceChars (s.data.map Char.toLower)).getLast? = some '.' →
        normalizeDNSName s = String.mk (trimSpaceChars (s.data.map Char.toLower)))
    ∧ ((trimSpaceChars (s.data.map Char.toLower)).getLast? ≠ some '.' →
        normalizeDNSName s = String.mk (trimSpaceChars (s.data.map Char.toLower) ++ ['.'])) := by
  unfold normalizeDNSName
  by_cases h : (trimSpaceChars (s.data.map Char.toLower)).getLast? = some '.'
  · simp [h]
  · have hb : ((trimSpaceChars (s.data.map Char.toLower)).getLast? == some '.') = false := by
      simpa using h
    simp [hb, h, List.getLast?_concat]

/-- Witness for C9 (amended) at a concrete name needing trimming,
lower-casing and a dot. -/
theorem c9_normalize_amended_witness :
    normalizeDNSName " Foo.Com " = String.mk (trimSpaceChars (" Foo.Com ".data.map Char.toLower) ++ ['.']) :=
  (c9_normalize_amended " Foo.Com ").2.2 (by decide)

/-! ### Claim C1: the ownership filter on the final change lists -/

/-- Claim C1 (counterexample): the ownership filter is *not* applied to the
final `Create` list — a record with no owner label at all survives into
`Create`. -/
theorem c1_counterexample :
    ((Plan.Calculate planC1).result).changes = some (planFinalChanges planC1)
    ∧ (planFinalChanges planC1).Create = some [epNoOwner]
    ∧ labelsLookup epNoOwner.labels ownerLabelKey = none :=
  ⟨rfl, by decide, by decide⟩

/-- Claim C1 (amended): in the plan returned by `Calculate` the ownership
filter is applied to `UpdateNew`, `UpdateOld` and `Delete` (but not to
`Create`): every record in those three lists carries an owner label that is a
member of the accepted owner set, and each of the three lists is nil rather
than an empty non-nil list when no record survives. -/
theorem c1_ownership_filter (p : Plan) (e : Endpoint) (fc : Changes)
    (hfc : ((Plan.Calculate p).result).changes = some fc) :
    (e ∈ fc.UpdateNew.getD [] →
      recordOwnerPasses (acceptedOwners p.TXTOwner p.TXTOwnerOld p.TXTOwnerMigrate) e = true)
    ∧ (e ∈ fc.UpdateOld.getD [] →
      recordOwnerPasses (acceptedOwners p.TXTOwner p.TXTOwnerOld p.TXTOwnerMigrate) e = true)
    ∧ (e ∈ fc.Delete.getD [] →
      recordOwnerPasses (acceptedOwners p.TXTOwner p.TXTOwnerOld p.TXTOwnerMigrate) e = true)
    ∧ fc.UpdateNew ≠ some [] ∧ fc.UpdateOld ≠ some [] ∧ fc.Delete ≠ some [] := by
  have hfc2 : some (planFinalChanges p) = some fc := hfc
  rw [Option.some.injEq] at hfc2
  subst hfc2
  refine ⟨?_, ?_, ?_, ?_, ?_, ?_⟩
  · intro hm
    exact mem_filterOwnedRecords _ _ _ _ _ hm
  · intro hm
    exact mem_filterOwnedRecords _ _ _ _ _ hm
  · intro hm
    exact mem_filterOwnedRecords _ _ _ _ _ hm
  · exact filterOwnedRecords_ne_some_nil _ _ _ _
  · exact filterOwnedRecords_ne_some_nil _ _ _ _
  · exact filterOwnedRecords_ne_some_nil _ _ _ _

/-- Witness for C1 (amended) at a concrete plan. -/
theorem c1_ownership_filter_witness :
    (epNoOwner ∈ (planFinalChanges planC1).UpdateNew.getD [] →
      recordOwnerPasses (acceptedOwners planC1.TXTOwner planC1.TXTOwnerOld planC1.TXTOwnerMigrate) epNoOwner = true)
    ∧ (epNoOwner ∈ (planFinalChanges planC1).UpdateOld.getD [] →
      recordOwnerPasses (acceptedOwners planC1.TXTOwner planC1.TXTOwnerOld planC1.TXTOwnerMigrate) epNoOwner = true)
    ∧ (epNoOwner ∈ (planFinalChanges planC1).Delete.getD [] →
      recordOwnerPasses (acceptedOwners planC1.TXTOwner planC1.TXTOwnerOld planC1.TXTOwnerMigrate) epNoOwner = true)
    ∧ (planFinalChanges planC1).UpdateNew ≠ some []
    ∧ (planFinalChanges planC1).UpdateOld ≠ some []
    ∧ (planFinalChanges planC1).Delete ≠ some [] :=
  c1_ownership_filter planC1 epNoOwner (planFinalChanges planC1) rfl

/-! ### Claim C2: `Calculate` and the receiver -/

/-- Claim C2 (counterexample): with a nil `DomainFilter`, `Calculate` writes
the match-all default back into the receiver, so the receiver is mutated. -/
theorem c2_counterexample :
    ((Plan.Calculate planC2).receiver).DomainFilter.isSome = true
    ∧ planC2.DomainFilter.isSome = false
    ∧ ((Plan.Calculate planC2).receiver).DomainFilter ≠ planC2.DomainFilter := by
  refine ⟨rfl, rfl, ?_⟩
  intro hc
  have : (some (planDf planC2) : Option (String → Bool)) = none := hc
  exact Option.noConfusion this

/-- Claim C2 (amended): `Calculate` mutates the receiver only by defaulting a
nil `DomainFilter` to the match-all filter; every other field of the receiver
is unchanged, and when `DomainFilter` is non-nil the receiver is completely
unchanged.  The result is a separately constructed plan value. -/
theorem c2_receiver_frame (p : Plan) :
    (Plan.Calculate p).receiver = { p with DomainFilter := some (planDf p) }
    ∧ (p.DomainFilter.isSome = true → (Plan.Calculate p).receiver = p) := by
  constructor
  · rfl
  · intro h
    cases hd : p.DomainFilter with
    | none => rw [hd] at h; exact Bool.noConfusion h
    | some f =>
      show ({ p with DomainFilter := some (planDf p) }) = p
      unfold planDf
      rw [hd, Option.getD_some, ← hd]

/-- Witness for C2 (amended) at a concrete plan with a non-nil filter. -/
theorem c2_receiver_frame_witness :
    (Plan.Calculate planC2W).receiver = planC2W :=
  (c2_receiver_frame planC2W).2 rfl

/-! ### Claim C8: `Calculate` and the caller's current records -/

/-- Claim C8 (counterexample): a current record with a nil label map that
takes the ordinary-update path is mutated in place by `inheritOwner`, which
replaces its nil label map with an empty one — the record is not structurally
unchanged after `Calculate`. -/
theorem c8_counterexample :
    currentAfterCalculate planC8 = [{ epCurC8 with labels := some [] }]
    ∧ epCurC8.labels = none
    ∧ currentAfterCalculate planC8 ≠ planC8.Current :=
  ⟨by decide, rfl, by decide⟩

/-- Claim C8 (amended): `Calculate` leaves every caller-supplied current
record unchanged except that a record with a nil label map that participates
in an ordinary update has its nil label map normalized to an empty one in
place; no label entry, target, TTL, type, name, set identifier or
provider-specific property of a current record is ever changed (and the
migration branch mutates only a deep copy). -/
theorem c8_current_frame (p : Plan) :
    List.Forall₂ (fun a e => a = e ∨ (e.labels = none ∧ a = { e with labels := some [] }))
      (currentAfterCalculate p) p.Current := by
  unfold currentAfterCalculate
  generalize p.Current = l
  induction l with
  | nil => exact List.Forall₂.nil
  | cons e rest ih =>
    unfold currentAfterList
    refine List.Forall₂.cons ?_ ih
    by_cases hc : (survivesPlanFilter p e
        && !(rest.any (fun e2 => survivesPlanFilter p e2 && (newPlanKey e2 == newPlanKey e)))
        && rowInheritOwnerFires p e) = true
    · rw [if_pos hc]
      cases hlb : e.labels with
      | none => exact Or.inr ⟨rfl, by simp [normalizeLabelsOf, hlb]⟩
      | some ll =>
        refine Or.inl ?_
        unfold normalizeLabelsOf
        rw [hlb, Option.getD_some, ← hlb]
    · rw [if_neg hc]
      exact Or.inl rfl

/-! ### Claim C10: rows are never empty -/

/-- Claim C10: every row of the grouping table built by `Calculate` has a
current record or a non-empty candidate list (rows are only created by
`addCurrent` or `addCandidate`), so the create branch only ever hands a
non-empty candidate list to the conflict resolver's `ResolveCreate`. -/
theorem c10_rows_nonempty (cur des : List Endpoint) (kr : planKey × planTableRow)
    (h : kr ∈ buildTable cur des) :
    (kr.2.current.isSome = true ∨ kr.2.candidates ≠ [])
    ∧ (kr.2.current = none →
        kr.2.candidates ≠ [] ∧ (resolveCreate kr.2.candidates).isSome = true) := by
  have hg := buildTable_good cur des kr h
  refine ⟨hg.1, ?_⟩
  intro hnone
  have hc : kr.2.candidates ≠ [] := by
    cases hg.1 with
    | inl h1 => rw [hnone] at h1; exact Bool.noConfusion h1
    | inr h2 => exact h2
  refine ⟨hc, ?_⟩
  unfold resolveCreate
  cases hcs : kr.2.candidates with
  | nil => exact absurd hcs hc
  | cons a as => rfl

/-- Witness for C10 at a concrete one-row table. -/
theorem c10_rows_nonempty_witness :
    (((⟨"c.", "", "A"⟩, ⟨some epCurC5, [epDesC5]⟩) : planKey × planTableRow).2.current.isSome = true
      ∨ ((⟨"c.", "", "A"⟩, ⟨some epCurC5, [epDesC5]⟩) : planKey × planTableRow).2.candidates ≠ [])
    ∧ (((⟨"c.", "", "A"⟩, ⟨some epCurC5, [epDesC5]⟩) : planKey × planTableRow).2.current = none →
        ((⟨"c.", "", "A"⟩, ⟨some epCurC5, [epDesC5]⟩) : planKey × planTableRow).2.candidates ≠ []
        ∧ (resolveCreate ((⟨"c.", "", "A"⟩, ⟨some epCurC5, [epDesC5]⟩) : planKey × planTableRow).2.candidates).isSome = true) :=
  c10_rows_nonempty [epCurC5] [epDesC5] (⟨"c.", "", "A"⟩, ⟨some epCurC5, [epDesC5]⟩) (by decide)

/-! ### Claim C3: the per-row outcome partition -/

/-- Claim C3: for every non-empty row, exactly one of the five outcomes
(create, delete, migrate, ordinary update, no-op) applies: a row yields a
create entry iff it has no current record, a delete entry iff it has a
current record and no candidates, and at most one update pair (of equal
lengths on both sides) only when it has both a current record and at least
one candidate. -/
theorem c3_partition (p : Plan) (row : planTableRow)
    (h : row.current.isSome = true ∨ row.candidates ≠ []) :
    ((processRow p row).create ≠ [] ↔ row.current = none)
    ∧ ((processRow p row).delete ≠ [] ↔ (row.current.isSome = true ∧ row.candidates = []))
    ∧ (processRow p row).updateNew.length ≤ 1
    ∧ (processRow p row).updateNew.length = (processRow p row).updateOld.length
    ∧ ((processRow p row).updateNew ≠ [] → (row.current.isSome = true ∧ row.candidates ≠ []))
    ∧ countTrue (rowOutcomes (processRow p row)) = 1 := by
  cases hcur : row.current with
  | none =>
    have hcand : row.candidates ≠ [] := by
      cases h with
      | inl h1 => rw [hcur] at h1; exact Bool.noConfusion h1
      | inr h2 => exact h2
    obtain ⟨a, as, hcs⟩ : ∃ a as, row.candidates = a :: as := by
      cases hcs : row.candidates with
      | nil => exact absurd hcs hcand
      | cons a as => exact ⟨a, as, rfl⟩
    simp [processRow, hcur, hcs, resolveCreate, rowOutcomes, countTrue]
  | some cur =>
    by_cases he : row.candidates.isEmpty = true
    · have hnil : row.candidates = [] := by simpa using he
      simp [processRow, hcur, he, hnil, rowOutcomes, countTrue]
    · have hcne : row.candidates ≠ [] := by
        intro hc
        rw [hc] at he
        simp at he
      by_cases hm : (p.TXTOwnerMigrate
          && (labelsGetD cur.labels ownerLabelKey == p.TXTOwnerOld)) = true
      · simp [processRow, hcur, he, hm, rowOutcomes, countTrue, hcne]
      · by_cases hu : (shouldUpdateTTL (resolveUpdate cur row.candidates) cur
            || targetChanged (resolveUpdate cur row.candidates) cur
            || p.shouldUpdateProviderSpecific (resolveUpdate cur row.candidates) cur) = true
        · simp [processRow, hcur, he, hm, hu, rowOutcomes, countTrue, hcne]
        · simp [processRow, hcur, he, hm, hu, rowOutcomes, countTrue, hcne]

/-- Witness for C3 at a concrete delete row. -/
theorem c3_partition_witness :
    ((processRow planC2 rowDel).create ≠ [] ↔ rowDel.current = none)
    ∧ ((processRow planC2 rowDel).delete ≠ [] ↔ (rowDel.current.isSome = true ∧ rowDel.candidates = []))
    ∧ (processRow planC2 rowDel).updateNew.length ≤ 1
    ∧ (processRow planC2 rowDel).updateNew.length = (processRow planC2 rowDel).updateOld.length
    ∧ ((processRow planC2 rowDel).updateNew ≠ [] → (rowDel.current.isSome = true ∧ rowDel.candidates ≠ []))
    ∧ countTrue (rowOutcomes (processRow planC2 rowDel)) = 1 :=
  c3_partition planC2 rowDel (Or.inl rfl)

/-! ### Claim C5: the owner-migration branch -/

theorem calculateRaw_snd (p : Plan) (rows : List planTableRow) (acc : Changes × Bool) :
    (rows.foldl (stepRow p) acc).2 = (acc.2 || rows.any (fun r => (processRow p r).hasMig)) := by
  induction rows generalizing acc with
  | nil => simp
  | cons r rs ih =>
    rw [List.foldl_cons, ih]
    simp [stepRow, Bool.or_assoc]

theorem planRawChanges_snd (p : Plan) :
    (planRawChanges p).2 = (planRows p).any (fun r => (processRow p r).hasMig) := by
  unfold planRawChanges calculateRaw
  rw [calculateRaw_snd]
  simp

/-- Claim C5: when migration is enabled and a row has a current record whose
owner label reads as `TXTOwnerOld` plus at least one candidate, the row emits
exactly one update pair — the deep copy of current with the owner label
rewritten to `TXTOwner` as `UpdateNew` and the unmodified current record as
`UpdateOld` — with the migration flag set and no further change detection
(the emission is independent of the TTL/target/provider predicates); if such
a row is among the plan's rows, the plan returned by `Calculate` has
`HasMig = true`. -/
theorem c5_migration (p : Plan) (row : planTableRow) (c : Endpoint)
    (hmig : p.TXTOwnerMigrate = true) (hcur : row.current = some c)
    (hcand : row.candidates ≠ [])
    (hown : labelsGetD c.labels ownerLabelKey = p.TXTOwnerOld) :
    processRow p row = ⟨[], [migrateOwnerCopy c p.TXTOwner], [c], [], true⟩
    ∧ (row ∈ planRows p → ((Plan.Calculate p).result).HasMig = true) := by
  have hie : row.candidates.isEmpty = false := by
    cases hcs : row.candidates with
    | nil => exact absurd hcs hcand
    | cons a as => rfl
  have hpr : processRow p row = ⟨[], [migrateOwnerCopy c p.TXTOwner], [c], [], true⟩ := by
    simp [processRow, hcur, hie, hmig, hown]
  refine ⟨hpr, ?_⟩
  intro hrow
  show (planRawChanges p).2 = true
  rw [planRawChanges_snd, List.any_eq_true]
  exact ⟨row, hrow, by rw [hpr]⟩

/-- Witness for C5 at a concrete migrating plan and row. -/
theorem c5_migration_witness :
    processRow planC5 rowC5 = ⟨[], [migrateOwnerCopy epCurC5 planC5.TXTOwner], [epCurC5], [], true⟩
    ∧ (rowC5 ∈ planRows planC5 → ((Plan.Calculate planC5).result).HasMig = true) :=
  c5_migration planC5 rowC5 epCurC5 rfl rfl (by decide) (by decide)

/-! ### Claim C4: the UpdateOld/UpdateNew pairing invariant -/

theorem optAppend_getD (s : Option (List Endpoint)) (xs : List Endpoint) :
    (optAppend s xs).getD [] = s.getD [] ++ xs := by
  unfold optAppend
  by_cases h : xs.isEmpty = true
  · rw [if_pos h]
    have hx : xs = [] := by simpa using h
    rw [hx, List.append_nil]
  · rw [if_neg h]
    rfl

theorem forall2_append {R : Endpoint → Endpoint → Prop} {a b c d : List Endpoint}
    (h1 : List.Forall₂ R a b) (h2 : List.Forall₂ R c d) :
    List.Forall₂ R (a ++ c) (b ++ d) := by
  induction h1 with
  | nil => simpa using h2
  | cons hab _ ih => exact List.Forall₂.cons hab ih

theorem planAfterMissing_updates (p : Plan) :
    (planAfterMissing p).UpdateNew = (planAfterPolicies p).UpdateNew
    ∧ (planAfterMissing p).UpdateOld = (planAfterPolicies p).UpdateOld := by
  unfold planAfterMissing
  by_cases h : p.Missing.isEmpty = true
  · rw [if_pos h]
    exact ⟨rfl, rfl⟩
  · rw [if_neg h]
    exact ⟨rfl, rfl⟩

theorem accepted_not_contains_empty (p : Plan) (h1 : p.TXTOwner ≠ "")
    (h2 : p.TXTOwnerMigrate = true → p.TXTOwnerOld ≠ "") :
    (acceptedOwners p.TXTOwner p.TXTOwnerOld p.TXTOwnerMigrate).contains "" = false := by
  have hx : ("" == p.TXTOwner) = false := by
    rw [beq_eq_false_iff_ne]
    exact fun hh => h1 hh.symm
  unfold acceptedOwners
  by_cases hmg : p.TXTOwnerMigrate = true
  · rw [if_pos hmg]
    simp [List.contains]
    exact ⟨fun hh => h1 hh.symm, fun hh => (h2 hmg) hh.symm⟩
  · rw [if_neg hmg]
    simp [List.contains]
    exact fun hh => h1 hh.symm

theorem processRow_pair (p : Plan) (row : planTableRow)
    (hk : rowKeyConsistent row)
    (h1 : p.TXTOwner ≠ "")
    (h2 : p.TXTOwnerMigrate = true → p.TXTOwnerOld ≠ "") :
    List.Forall₂ (pairRel p) (processRow p row).updateNew (processRow p row).updateOld := by
  cases hcur : row.current with
  | none =>
    have hpr : processRow p row = ⟨(resolveCreate row.candidates).toList, [], [], [], false⟩ := by
      simp [processRow, hcur]
    rw [hpr]
    exact List.Forall₂.nil
  | some cur =>
    by_cases he : row.candidates.isEmpty = true
    · have hpr : processRow p row = ⟨[], [], [], [cur], false⟩ := by
        simp [processRow, hcur, he]
      rw [hpr]
      exact List.Forall₂.nil
    · by_cases hm : (p.TXTOwnerMigrate
          && (labelsGetD cur.labels ownerLabelKey == p.TXTOwnerOld)) = true
      · have hpr : processRow p row = ⟨[], [migrateOwnerCopy cur p.TXTOwner], [cur], [], true⟩ := by
          simp [processRow, hcur, he, hm]
        rw [hpr]
        refine List.Forall₂.cons ⟨rfl, ?_⟩ List.Forall₂.nil
        rw [Bool.and_eq_true] at hm
        obtain ⟨hmig, hovb⟩ := hm
        have hov : labelsGetD cur.labels ownerLabelKey = p.TXTOwnerOld := by
          simpa using hovb
        have hold_ne : p.TXTOwnerOld ≠ "" := h2 hmig
        have hlook : labelsLookup cur.labels ownerLabelKey = some p.TXTOwnerOld :=
          labelsLookup_of_getD _ _ _ hov hold_ne
        have hnew : recordOwnerPasses (acceptedOwners p.TXTOwner p.TXTOwnerOld p.TXTOwnerMigrate)
            (migrateOwnerCopy cur p.TXTOwner) = true := by
          unfold recordOwnerPasses
          rw [show (migrateOwnerCopy cur p.TXTOwner).labels
              = some (labelsInsert (cur.labels.getD []) ownerLabelKey p.TXTOwner) from rfl]
          rw [labelsLookup_insert_self]
          unfold acceptedOwners
          rw [if_pos hmig]
          simp [List.contains]
        have hold : recordOwnerPasses (acceptedOwners p.TXTOwner p.TXTOwnerOld p.TXTOwnerMigrate)
            cur = true := by
          unfold recordOwnerPasses
          rw [hlook]
          unfold acceptedOwners
          rw [if_pos hmig]
          simp [List.contains]
        rw [hnew, hold]
      · by_cases hu : (shouldUpdateTTL (resolveUpdate cur row.candidates) cur
            || targetChanged (resolveUpdate cur row.candidates) cur
            || p.shouldUpdateProviderSpecific (resolveUpdate cur row.candidates) cur) = true
        · have hpr : processRow p row
              = ⟨[], [(inheritOwner cur (resolveUpdate cur row.candidates)).2],
                 [(inheritOwner cur (resolveUpdate cur row.candidates)).1], [], false⟩ := by
            simp [processRow, hcur, he, hm, hu]
          rw [hpr]
          refine List.Forall₂.cons ⟨?_, ?_⟩ List.Forall₂.nil
          · have hupd : resolveUpdate cur row.candidates ∈ row.candidates := by
              unfold resolveUpdate
              cases hcs : row.candidates with
              | nil =>
                rw [hcs] at he
                exact absurd rfl he
              | cons a as => exact List.mem_cons_self a as
            have hkey : newPlanKey (resolveUpdate cur row.candidates) = newPlanKey cur :=
              hk cur hcur _ hupd
            exact hkey
          · have hlook2 : labelsLookup ((inheritOwner cur (resolveUpdate cur row.candidates)).2).labels
                ownerLabelKey = some (labelsGetD cur.labels ownerLabelKey) := by
              show labelsLookup (some (labelsInsert ((resolveUpdate cur row.candidates).labels.getD [])
                ownerLabelKey (labelsGetD (some (cur.labels.getD [])) ownerLabelKey))) ownerLabelKey = _
              rw [labelsLookup_insert_self]
              unfold labelsGetD
              rw [labelsLookup_norm]
            have hlook1 : labelsLookup ((inheritOwner cur (resolveUpdate cur row.candidates)).1).labels
                ownerLabelKey = labelsLookup cur.labels ownerLabelKey := by
              show labelsLookup (some (cur.labels.getD [])) ownerLabelKey = _
              rw [labelsLookup_norm]
            unfold recordOwnerPasses
            rw [hlook2, hlook1]
            cases hcl : labelsLookup cur.labels ownerLabelKey with
            | some w =>
              have hgd : labelsGetD cur.labels ownerLabelKey = w := by
                unfold labelsGetD
                rw [hcl]
                rfl
              rw [hgd]
            | none =>
              have hgd : labelsGetD cur.labels ownerLabelKey = "" := by
                unfold labelsGetD
                rw [hcl]
                rfl
              rw [hgd]
              exact accepted_not_contains_empty p h1 h2
        · have hpr : processRow p row = ⟨[], [], [], [], false⟩ := by
            simp [processRow, hcur, he, hm, hu]
          rw [hpr]
          exact List.Forall₂.nil

theorem calculateRaw_pair (p : Plan) (h1 : p.TXTOwner ≠ "")
    (h2 : p.TXTOwnerMigrate = true → p.TXTOwnerOld ≠ "") (rows : List planTableRow) :
    ∀ acc : Changes × Bool,
      (∀ r ∈ rows, rowKeyConsistent r) →
      List.Forall₂ (pairRel p) (acc.1.UpdateNew.getD []) (acc.1.UpdateOld.getD []) →
      List.Forall₂ (pairRel p)
        (((rows.foldl (stepRow p) acc).1).UpdateNew.getD [])
        (((rows.foldl (stepRow p) acc).1).UpdateOld.getD []) := by
  induction rows with
  | nil =>
    intro acc _ hacc
    exact hacc
  | cons r rs ih =>
    intro acc hrows hacc
    rw [List.foldl_cons]
    refine ih _ (fun x hx => hrows x (List.mem_cons_of_mem _ hx)) ?_
    show List.Forall₂ (pairRel p)
      ((optAppend acc.1.UpdateNew (processRow p r).updateNew).getD [])
      ((optAppend acc.1.UpdateOld (processRow p r).updateOld).getD [])
    rw [optAppend_getD, optAppend_getD]
    exact forall2_append hacc (processRow_pair p r (hrows r (List.mem_cons_self r rs)) h1 h2)

theorem forall2_filter_owned (p : Plan) (xs ys : List Endpoint)
    (h : List.Forall₂ (pairRel p) xs ys) :
    List.Forall₂ keyRel
      (xs.filter (recordOwnerPasses (acceptedOwners p.TXTOwner p.TXTOwnerOld p.TXTOwnerMigrate)))
      (ys.filter (recordOwnerPasses (acceptedOwners p.TXTOwner p.TXTOwnerOld p.TXTOwnerMigrate))) := by
  induction h with
  | nil => exact List.Forall₂.nil
  | @cons a b l1 l2 hab hrest ih =>
    cases hpa : recordOwnerPasses (acceptedOwners p.TXTOwner p.TXTOwnerOld p.TXTOwnerMigrate) a with
    | true =>
      have hpb : recordOwnerPasses (acceptedOwners p.TXTOwner p.TXTOwnerOld p.TXTOwnerMigrate) b
          = true := by
        rw [← hab.2]
        exact hpa
      rw [List.filter_cons_of_pos hpa, List.filter_cons_of_pos hpb]
      exact List.Forall₂.cons hab.1 ih
    | false =>
      have hpb : recordOwnerPasses (acceptedOwners p.TXTOwner p.TXTOwnerOld p.TXTOwnerMigrate) b
          = false := by
        rw [← hab.2]
        exact hpa
      rw [List.filter_cons_of_neg (by simp [hpa]), List.filter_cons_of_neg (by simp [hpb])]
      exact ih

/-- Claim C4 (counterexample): with an empty policy list but an empty owner
identity and an owner-less current record on an update row, the ownership
filter keeps `UpdateNew` (whose entry received an owner label with value `""`
from `inheritOwner`) but drops the corresponding `UpdateOld` entry (whose
owner label is absent), so the final lists have different lengths. -/
theorem c4_counterexample :
    planC4.Policies = []
    ∧ ((planFinalChanges planC4).UpdateOld.getD []).length = 0
    ∧ ((planFinalChanges planC4).UpdateNew.getD []).length = 1
    ∧ ((Plan.Calculate planC4).result).changes = some (planFinalChanges planC4) :=
  ⟨rfl, by decide, by decide, rfl⟩

/-- Claim C4 (amended): for every input plan with an empty policy list whose
accepted owner set contains no empty identity (`TXTOwner ≠ ""`, and
`TXTOwnerOld ≠ ""` whenever `TXTOwnerMigrate` is set), the Changes in the
plan returned by `Calculate` satisfy the pairing invariant:
`UpdateOld` and `UpdateNew` have equal length and the grouping keys agree at
every index. -/
theorem c4_pairing (p : Plan) (hpol : p.Policies = [])
    (h1 : p.TXTOwner ≠ "") (h2 : p.TXTOwnerMigrate = true → p.TXTOwnerOld ≠ "") :
    ((Plan.Calculate p).result).changes = some (planFinalChanges p)
    ∧ ((planFinalChanges p).UpdateOld.getD []).length
        = ((planFinalChanges p).UpdateNew.getD []).length
    ∧ ∀ (i : Nat) (hi : i < ((planFinalChanges p).UpdateOld.getD []).length)
        (hi2 : i < ((planFinalChanges p).UpdateNew.getD []).length),
        newPlanKey (((planFinalChanges p).UpdateOld.getD []).get ⟨i, hi⟩)
          = newPlanKey (((planFinalChanges p).UpdateNew.getD []).get ⟨i, hi2⟩) := by
  have hraw : List.Forall₂ (pairRel p)
      (((planRawChanges p).1).UpdateNew.getD []) (((planRawChanges p).1).UpdateOld.getD []) := by
    unfold planRawChanges calculateRaw
    exact calculateRaw_pair p h1 h2 (planRows p) _
      (fun r hr => planRows_keyConsistent p r hr) List.Forall₂.nil
  have hap : planAfterPolicies p = (planRawChanges p).1 := by
    unfold planAfterPolicies
    rw [hpol]
    rfl
  have ham := planAfterMissing_updates p
  have hfiltN : (planFinalChanges p).UpdateNew.getD []
      = (((planRawChanges p).1).UpdateNew.getD []).filter
          (recordOwnerPasses (acceptedOwners p.TXTOwner p.TXTOwnerOld p.TXTOwnerMigrate)) := by
    show (filterOwnedRecords p.TXTOwner p.TXTOwnerOld p.TXTOwnerMigrate
        ((planAfterMissing p).UpdateNew.getD [])).getD [] = _
    rw [filterOwnedRecords_getD, ham.1, hap]
  have hfiltO : (planFinalChanges p).UpdateOld.getD []
      = (((planRawChanges p).1).UpdateOld.getD []).filter
          (recordOwnerPasses (acceptedOwners p.TXTOwner p.TXTOwnerOld p.TXTOwnerMigrate)) := by
    show (filterOwnedRecords p.TXTOwner p.TXTOwnerOld p.TXTOwnerMigrate
        ((planAfterMissing p).UpdateOld.getD [])).getD [] = _
    rw [filterOwnedRecords_getD, ham.2, hap]
  have hfin : List.Forall₂ keyRel
      ((planFinalChanges p).UpdateNew.getD []) ((planFinalChanges p).UpdateOld.getD []) := by
    rw [hfiltN, hfiltO]
    exact forall2_filter_owned p _ _ hraw
  refine ⟨rfl, hfin.length_eq.symm, ?_⟩
  intro i hi hi2
  have hr : keyRel (((planFinalChanges p).UpdateNew.getD []).get ⟨i, hi2⟩)
      (((planFinalChanges p).UpdateOld.getD []).get ⟨i, hi⟩) := hfin.get hi2 hi
  exact (hr : newPlanKey _ = newPlanKey _).symm

/-- Witness for C4 (amended) at a concrete plan with a non-empty owner. -/
theorem c4_pairing_witness :
    ((Plan.Calculate planC8).result).changes = some (planFinalChanges planC8)
    ∧ ((planFinalChanges planC8).UpdateOld.getD []).length
        = ((planFinalChanges planC8).UpdateNew.getD []).length
    ∧ ∀ (i : Nat) (hi : i < ((planFinalChanges planC8).UpdateOld.getD []).length)
        (hi2 : i < ((planFinalChanges planC8).UpdateNew.getD []).length),
        newPlanKey (((planFinalChanges planC8).UpdateOld.getD []).get ⟨i, hi⟩)
          = newPlanKey (((planFinalChanges planC8).UpdateNew.getD []).get ⟨i, hi2⟩) :=
  c4_pairing planC8 rfl (by decide) (fun h => absurd h (by decide))

end ExternalDNS
